import Mathlib

/-!
# cpout: run a command, print its output, copy it to the clipboard

A shallow embedding of `internal/run/run.go`, `cmd/root.go` and
`internal/clipboard/clipboard_linux.go`, followed by the properties of the
specification that were checked against it.

Go strings are byte sequences, so they are modelled as `List UInt8`; string
literals of the source are written `utf8 "..."`.  Everything the program does
to the outside world (spawning the command, calling the clipboard tool,
writing to the standard streams) is made explicit: the outside world is a
record of functions, and every operation returns what it wrote and what it
called next to its Go return value.
-/

set_option autoImplicit false

namespace Cpout

/-! ## Strings -/

/-- A Go `string`: a sequence of bytes. -/
abbrev Str := List UInt8

/-- The bytes of a source-code string literal (Go source is UTF-8). -/
def utf8 (s : String) : Str := s.data.flatMap String.utf8EncodeChar

/-- The byte `'\n'`. -/
def nl : UInt8 := 0x0A

/-- The byte `'\r'`. -/
def cr : UInt8 := 0x0D

/-- The byte `'\''`. -/
def sq : UInt8 := 0x27

/-- The byte `'\\'`. -/
def bslash : UInt8 := 0x5C

/-- Go `strings.HasSuffix(s, suffix)`. -/
def HasSuffix (s suffix : Str) : Bool := suffix.isSuffixOf s

/-- Go `strings.ContainsAny(s, chars)` for a `chars` made of ASCII characters only:
some byte of `s` is one of `chars` (bytes of a multi-byte rune and invalid bytes
are never ASCII, so the rune-wise and the byte-wise tests agree). -/
def ContainsAny (s chars : Str) : Bool := s.any (fun b => chars.contains b)

/-- Go `strings.ReplaceAll(s, old, new)` for a one-byte `old`: every occurrence of
the byte is replaced (occurrences of a single byte cannot overlap). -/
def ReplaceAll (s : Str) (old : UInt8) (new : Str) : Str :=
  s.flatMap (fun b => if b = old then new else [b])

/-- Go `strings.Join(parts, sep)`. -/
def Join : List Str → Str → Str
  | [], _ => []
  | [p], _ => p
  | p :: q :: ps, sep => p ++ sep ++ Join (q :: ps) sep

/-! ## bufio.Scanner over a string, with the default `ScanLines` split -/

/-- Go `bufio.MaxScanTokenSize`: the size the scanner buffer may grow to. -/
def MaxScanTokenSize : Nat := 64 * 1024

/-- Go `bufio.dropCR`: drop one trailing `\r`. -/
def dropCR (data : Str) : Str :=
  if data.getLast? = some cr then data.dropLast else data

/-- One call of `sc.Scan()` on a `bufio.Scanner` reading the remaining input `data`
with the default split function `bufio.ScanLines`: `some (sc.Text(), rest)` when
`Scan` returns true, `none` when it returns false.

* no input left: false (end of input);
* otherwise the raw line is what stands before the first `\n` (or all of the
  input when there is none); the scanner returns it when, together with its
  newline, it fits the buffer: a raw line of `MaxScanTokenSize` bytes or more
  fills the buffer without a newline in it and `Scan` stops with `ErrTooLong`
  (the loop of `truncateLines` never looks at `sc.Err()`);
* the token is the raw line without one trailing `\r`. -/
def Scan (data : Str) : Option (Str × Str) :=
  if data = [] then none
  else
    let raw := data.takeWhile (fun b => b != nl)
    if raw.length ≥ MaxScanTokenSize then none
    else some (dropCR raw, (data.dropWhile (fun b => b != nl)).drop 1)

/-! ## internal/run: the output formatter -/

/-- The marker `"… (truncated)"` written by `truncateLines`. -/
def truncMarker : Str := utf8 "… (truncated)"

/-- The `for sc.Scan() { ... }` loop of `truncateLines`: `data` is the input the
scanner has not consumed, `lines` the counter, `b` the builder.  Each iteration
consumes input, so `data.length + 1` iterations are always enough
(`truncLoop_terminates`); `none` means the iteration bound was used up. -/
def truncLoop (n : Int) : Nat → Str → Int → Str → Option Str
  | 0, _, _, _ => none
  | fuel + 1, data, lines, b =>
    match Scan data with
    | none => some b
    | some (text, rest) =>
      if lines ≥ n then some (b ++ truncMarker)
      else
        let b1 := if lines > 0 then b ++ [nl] else b
        truncLoop n fuel rest (lines + 1) (b1 ++ text)

/-- Go `truncateLines(s, n)`. -/
def truncateLines (s : Str) (n : Int) : Str :=
  if n ≤ 0 then s
  else (truncLoop n (s.length + 1) s 0 []).getD []

/-- Go `wrapFenced(content, lang)`. -/
def wrapFenced (content lang : Str) : Str :=
  let open1 := utf8 "```"
  let open2 := if lang ≠ [] then open1 ++ lang else open1
  open2 ++ utf8 "\n" ++ content ++ utf8 "\n```"

/-- The characters that make `shellQuote` quote its argument:
space, tab, newline, `"`, `'`, backtick, `$`, `\`, `!`, `&`, `*`, `(`, `)`,
`[`, `]`, `{`, `}`, `|`, `;`, `<`, `>`, `?`. -/
def shellMeta : Str :=
  [0x20, 0x09, 0x0A, 0x22, 0x27, 0x60, 0x24, 0x5C, 0x21, 0x26, 0x2A, 0x28, 0x29,
   0x5B, 0x5D, 0x7B, 0x7D, 0x7C, 0x3B, 0x3C, 0x3E, 0x3F]

/-- The replacement `'\''` (quote, backslash, quote, quote) of `shellQuote`. -/
def escapedQuote : Str := [sq, bslash, sq, sq]

/-- Go `shellQuote(s)`. -/
def shellQuote (s : Str) : Str :=
  if s = [] then [sq, sq]
  else if ContainsAny s shellMeta then [sq] ++ ReplaceAll s sq escapedQuote ++ [sq]
  else s

/-- Go `headerLine(argv)`; `goos` is `runtime.GOOS`. -/
def headerLine (goos : Str) (argv : List Str) : Str :=
  let parts := argv.map shellQuote
  let prompt := if goos = utf8 "windows" then utf8 ">" else utf8 "❯ "
  prompt ++ Join parts (utf8 " ")

/-! ## internal/run: running the command -/

/-- Go `run.Options`. -/
structure Options where
  StdoutOnly : Bool
  CopyOnly : Bool
  IncludeCmd : Bool
  Markdown : Bool
  FenceLang : Str
  Truncate : Int

/-- The non-nil values `err` that `cmd.Run()` can return, as far as `exitCode`
tells them apart. -/
inductive RunError where
  /-- An `*exec.ExitError` whose `Sys()` has the method `ExitStatus() int`: the
  command ran and ended with this status. -/
  | exitStatus (status : Int)
  /-- An `*exec.ExitError` whose `Sys()` lacks `ExitStatus()`. -/
  | exitNoStatus
  /-- Any error that is not an `*exec.ExitError`: the command was never started
  (executable not found, permission denied, ...); `msg` is its text. -/
  | notStarted (msg : Str)

/-- The world outside `run.Run`. -/
structure World where
  /-- Value of `runtime.GOOS`. -/
  GOOS : Str
  /-- What `exec.Command(argv[0], argv[1:]...).Run()` leaves in the capture buffer
  and returns, for the given argv and the given `stdoutOnly` wiring of stderr. -/
  cmdRun : List Str → Bool → Str × Option RunError
  /-- The clipboard backend built for the target, `clipboard.Copy`: `none` is a nil
  error, `some e` an error with text `e`. -/
  clipboardCopy : Str → Option Str

/-- Go `exitCode(err)`. -/
def exitCode : Option RunError → Int
  | none => 0
  | some (RunError.exitStatus status) => status
  | some RunError.exitNoStatus => 1
  | some (RunError.notStarted _) => 1

/-- Go `runCapture(argv, stdoutOnly)`. -/
def runCapture (w : World) (argv : List Str) (stdoutOnly : Bool) : Str × Int :=
  let r := w.cmdRun argv stdoutOnly
  (r.1, exitCode r.2)

/-- What a call of `run.Run` returns and does: the returned pair `(code, err)`, the
text written to standard output and to standard error, the commands spawned
(argv and `stdoutOnly`) and the payloads handed to `clipboard.Copy`, in order. -/
structure RunResult where
  code : Int
  err : Option Str
  stdout : Str
  stderr : Str
  spawned : List (List Str × Bool)
  copied : List Str

/-- Go `run.Run(argv, opt)`. -/
def Run (w : World) (argv : List Str) (opt : Options) : RunResult :=
  if argv.length = 0 then
    { code := 127, err := some (utf8 "no command provided"),
      stdout := [], stderr := [], spawned := [], copied := [] }
  else
    let header := if opt.IncludeCmd then headerLine w.GOOS argv ++ utf8 "\n" else utf8 ""
    let oc := runCapture w argv opt.StdoutOnly
    let out := oc.1
    let code := oc.2
    let display := if opt.Truncate > 0 then truncateLines out opt.Truncate else out
    let printed :=
      if !opt.CopyOnly then
        (if header ≠ utf8 "" then header else []) ++ display ++
          (if !HasSuffix display (utf8 "\n") then utf8 "\n" else [])
      else []
    let clip0 := header ++ display
    let clip := if opt.Markdown then wrapFenced clip0 opt.FenceLang else clip0
    let diag :=
      match w.clipboardCopy clip with
      | some e =>
        if !opt.CopyOnly then utf8 "cpout: clipboard error: " ++ e ++ utf8 "\n" else []
      | none => []
    { code := code, err := none,
      stdout := printed, stderr := diag, spawned := [(argv, opt.StdoutOnly)], copied := [clip] }

/-! ## cmd: the command line -/

/-- The flag variables of `cmd/root.go`, as set by the flag parser. -/
structure Flags where
  flagStdoutOnly : Bool
  flagCopyOnly : Bool
  flagIncludeCmd : Bool
  flagNoCmd : Bool
  flagMarkdown : Bool
  flagFenceLang : Str
  flagTruncate : Int

/-- The flag values when no flag is given (the defaults registered in `init`). -/
def defaultFlags : Flags :=
  { flagStdoutOnly := false, flagCopyOnly := false, flagIncludeCmd := true, flagNoCmd := false,
    flagMarkdown := false, flagFenceLang := utf8 "", flagTruncate := 0 }

/-- The `run.Options` built by `rootCmd.RunE` from the flags. -/
def buildOptions (f : Flags) : Options :=
  { StdoutOnly := f.flagStdoutOnly,
    CopyOnly := f.flagCopyOnly,
    IncludeCmd := f.flagIncludeCmd && !f.flagNoCmd,
    Markdown := f.flagMarkdown || decide (f.flagFenceLang ≠ utf8 ""),
    FenceLang := f.flagFenceLang,
    Truncate := f.flagTruncate }

/-- What a piece of the command line program does: `exited = some c` when it called
`os.Exit(c)`, else `returned` is the error it returned (`none` for nil); then what
was written and called, as in `RunResult`. -/
structure Outcome where
  exited : Option Int
  returned : Option Str
  stdout : Str
  stderr : Str
  spawned : List (List Str × Bool)
  copied : List Str

/-- Go `rootCmd.RunE` on the positional arguments `args`. -/
def RunE (w : World) (f : Flags) (args : List Str) : Outcome :=
  if args.length = 0 then
    { exited := none, returned := some (utf8 "missing command. Try: cpout -h"),
      stdout := [], stderr := [], spawned := [], copied := [] }
  else
    let opts := buildOptions f
    let r := Run w args opts
    let msg :=
      match r.err with
      | some e => if !opts.CopyOnly then utf8 "cpout: " ++ e ++ utf8 "\n" else []
      | none => []
    { exited := some r.code, returned := none,
      stdout := r.stdout, stderr := r.stderr ++ msg, spawned := r.spawned, copied := r.copied }

/-- The library call `rootCmd.Execute()` of cobra when the command line selects the
root command with flags `f` and positional arguments `args`: it runs `RunE`; when
`RunE` returns an error it prints `Error: ` and the error text, then the usage text
`usage`, to standard error, and returns the error. -/
def cobraExecute (w : World) (usage : Str) (f : Flags) (args : List Str) : Outcome :=
  let r := RunE w f args
  match r.exited, r.returned with
  | some _, _ => r
  | none, none => r
  | none, some e =>
    { r with stderr := r.stderr ++ utf8 "Error: " ++ e ++ utf8 "\n" ++ usage ++ utf8 "\n" }

/-- The final state of the process. -/
structure Process where
  exitCode : Int
  stdout : Str
  stderr : Str
  spawned : List (List Str × Bool)
  copied : List Str

/-- Go `cmd.Execute()` followed by the return of `main`: the process ends with the
code given to `os.Exit` inside `RunE`, with 1 when `rootCmd.Execute()` returned an
error, with 0 otherwise. -/
def Execute (w : World) (usage : Str) (f : Flags) (args : List Str) : Process :=
  let r := cobraExecute w usage f args
  let code : Int :=
    match r.exited, r.returned with
    | some c, _ => c
    | none, some _ => 1
    | none, none => 0
  { exitCode := code, stdout := r.stdout, stderr := r.stderr,
    spawned := r.spawned, copied := r.copied }

/-! ## internal/clipboard, Linux target -/

namespace Linux

/-- The tools outside `clipboard.Copy`. -/
structure Tools where
  /-- Whether `exec.LookPath(name)` finds the tool (returns a nil error). -/
  LookPath : Str → Bool
  /-- What `CombinedOutput()` returns, `(out, err)`, for the command `name args...`
  fed `stdin`; `none` is a nil error. -/
  CombinedOutput : Str → List Str → Str → Str × Option Str

/-- A step `Copy` takes in the outside world. -/
inductive ToolCall where
  | look (name : Str)
  | invoke (name : Str) (args : List Str) (stdin : Str)
  deriving DecidableEq

/-- Go `clipboard.Copy(s)` of `clipboard_linux.go`: the returned error (`none` for
nil) and the steps taken, in order. -/
def Copy (t : Tools) (s : Str) : Option Str × List ToolCall :=
  if t.LookPath (utf8 "xclip") then
    let args := [utf8 "-selection", utf8 "clipboard"]
    let r := t.CombinedOutput (utf8 "xclip") args s
    let calls := [ToolCall.look (utf8 "xclip"), ToolCall.invoke (utf8 "xclip") args s]
    match r.2 with
    | none => (none, calls)
    | some e => (some (utf8 "xclip: " ++ e ++ utf8 " (" ++ r.1 ++ utf8 ")"), calls)
  else if t.LookPath (utf8 "xsel") then
    let args := [utf8 "--clipboard", utf8 "--input"]
    let r := t.CombinedOutput (utf8 "xsel") args s
    let calls := [ToolCall.look (utf8 "xclip"), ToolCall.look (utf8 "xsel"),
      ToolCall.invoke (utf8 "xsel") args s]
    match r.2 with
    | none => (none, calls)
    | some e => (some (utf8 "xsel: " ++ e ++ utf8 " (" ++ r.1 ++ utf8 ")"), calls)
  else
    (some (utf8 "no clipboard tool found (install xclip or xsel)"),
      [ToolCall.look (utf8 "xclip"), ToolCall.look (utf8 "xsel")])

end Linux

/-! ## The specification's vocabulary -/

/-- The lines of a text, in the specification's sense: the runs of bytes between
newlines; a newline at the very end closes the last line and opens no new one. -/
def splitLines : Str → List Str
  | [] => []
  | c :: cs =>
    if c = nl then [] :: splitLines cs
    else
      match splitLines cs with
      | [] => [[c]]
      | l :: ls => (c :: l) :: ls

/-- Lines joined by single newlines (no newline after the last). -/
def joinLines (ls : List Str) : Str := Join ls [nl]

/-- A text without its final newline, when it ends in one. -/
def trimFinalNewline (s : Str) : Str :=
  if s.getLast? = some nl then s.dropLast else s

/-- The characters that are special to a POSIX shell when they stand unquoted:
`|`, `&`, `;`, `<`, `>`, `(`, `)`, `$`, backtick, `\`, `"`, `'`, space, tab,
newline, `*`, `?`, `[`, `#`, `~`, `=`, `%`. -/
def posixSpecial : Str :=
  [0x7C, 0x26, 0x3B, 0x3C, 0x3E, 0x28, 0x29, 0x24, 0x60, 0x5C, 0x22, 0x27, 0x20, 0x09,
   0x0A, 0x2A, 0x3F, 0x5B, 0x23, 0x7E, 0x3D, 0x25]

/-- Reading one word the way a POSIX shell removes quotes.  Inside single quotes
every byte up to the closing quote is literal.  Outside quotes a single quote opens
a quoted segment, a backslash makes the next byte literal (a backslash and a newline
are a line continuation and vanish), and a byte that is not special is literal.  The
segments are concatenated.  `inQuote` tells whether a quoted segment is open; the
result is `none` when the text is not one plain word: it ends inside a quoted
segment or after a lone backslash, or holds another special character unquoted. -/
def posixUnquoteFrom : Bool → Str → Option Str
  | false, [] => some []
  | true, [] => none
  | true, c :: cs =>
    if c = sq then posixUnquoteFrom false cs
    else (posixUnquoteFrom true cs).map (fun r => c :: r)
  | false, c :: cs =>
    if c = sq then posixUnquoteFrom true cs
    else if c = bslash then
      match cs with
      | [] => none
      | d :: ds =>
        if d = nl then posixUnquoteFrom false ds
        else (posixUnquoteFrom false ds).map (fun r => d :: r)
    else if posixSpecial.contains c then none
    else (posixUnquoteFrom false cs).map (fun r => c :: r)

/-- POSIX quote removal on one word. -/
def posixUnquote (word : Str) : Option Str := posixUnquoteFrom false word

/-! ## Concrete inputs -/

/-- The options when no flag is given: `IncludeCmd` on, everything else off. -/
def defaultOptions : Options :=
  { StdoutOnly := false, CopyOnly := false, IncludeCmd := true, Markdown := false,
    FenceLang := [], Truncate := 0 }

/-- The invocation `echo hi`. -/
def echoHi : List Str := [utf8 "echo", utf8 "hi"]

/-- A Linux machine where `echo hi` prints `hi` and exits 0, every other command
exits with status 3 and no output, and the clipboard backend succeeds. -/
def echoWorld : World :=
  { GOOS := utf8 "linux",
    cmdRun := fun argv _ =>
      if argv = echoHi then (utf8 "hi\n", none) else ([], some (RunError.exitStatus 3)),
    clipboardCopy := fun _ => none }

/-- The same machine with a clipboard backend that always fails. -/
def brokenClipboardWorld : World :=
  { echoWorld with clipboardCopy := fun _ => some (utf8 "no clipboard tool found") }

/-- A Linux machine on which no command can be started. -/
def notFoundWorld : World :=
  { GOOS := utf8 "linux",
    cmdRun := fun _ _ =>
      ([], some (RunError.notStarted (utf8 "executable file not found in $PATH"))),
    clipboardCopy := fun _ => none }

/-- Options with a fence language but `Markdown` off. -/
def pythonNoMarkdown : Options :=
  { StdoutOnly := false, CopyOnly := false, IncludeCmd := true, Markdown := false,
    FenceLang := utf8 "python", Truncate := 0 }

/-- Flags of `cpout -M python`. -/
def pythonFlags : Flags := { defaultFlags with flagFenceLang := utf8 "python" }

/-- A machine with `xclip` installed and failing, and `xsel` installed and working. -/
def xclipFails : Linux.Tools :=
  { LookPath := fun _ => true,
    CombinedOutput := fun name _ _ =>
      if name = utf8 "xclip" then (utf8 "Error: Can't open display", some (utf8 "exit status 1"))
      else ([], none) }

/-- A machine with `xsel` only. -/
def onlyXsel : Linux.Tools :=
  { LookPath := fun name => decide (name = utf8 "xsel"),
    CombinedOutput := fun _ _ _ => ([], none) }

/-- A machine with no clipboard tool. -/
def noTools : Linux.Tools :=
  { LookPath := fun _ => false,
    CombinedOutput := fun _ _ _ => ([], some (utf8 "exit status 127")) }

/-- The header `Run` builds. -/
def headerOf (w : World) (argv : List Str) (opt : Options) : Str :=
  if opt.IncludeCmd then headerLine w.GOOS argv ++ [nl] else []

/-- The display body `Run` builds: the capture, truncated. -/
def displayOf (w : World) (argv : List Str) (opt : Options) : Str :=
  truncateLines (runCapture w argv opt.StdoutOnly).1 opt.Truncate

/-- What the loop of `truncateLines` appends to the builder `b` for the tokens
`toks` when the counter stands at `k`: a newline before every token but the very
first of the run. -/
def appendLines : Nat → Str → List Str → Str
  | _, b, [] => b
  | k, b, t :: ts => appendLines (k + 1) ((if k > 0 then b ++ [nl] else b) ++ t) ts

/-! # Properties -/

/-! ## Basic facts -/

theorem utf8_newline : utf8 "\n" = [nl] := by decide

theorem utf8_empty : utf8 "" = [] := by decide

theorem HasSuffix_iff (s suffix : Str) : HasSuffix s suffix = true ↔ suffix <:+ s := by
  unfold HasSuffix
  exact List.isSuffixOf_iff_suffix

theorem length_ne_zero_of_ne_nil {α : Type} {l : List α} (h : l ≠ []) : ¬ l.length = 0 := by
  cases l with
  | nil => exact absurd rfl h
  | cons a t => simp

theorem truncateLines_of_nonpos (s : Str) (n : Int) (h : ¬ n > 0) : truncateLines s n = s := by
  unfold truncateLines
  rw [if_pos (by omega)]

/-! ## What `Run` returns and does, field by field -/

theorem Run_code (w : World) (argv : List Str) (opt : Options) (h : argv ≠ []) :
    (Run w argv opt).code = (runCapture w argv opt.StdoutOnly).2 := by
  unfold Run
  rw [if_neg (length_ne_zero_of_ne_nil h)]

theorem Run_err (w : World) (argv : List Str) (opt : Options) (h : argv ≠ []) :
    (Run w argv opt).err = none := by
  unfold Run
  rw [if_neg (length_ne_zero_of_ne_nil h)]

theorem Run_spawned (w : World) (argv : List Str) (opt : Options) (h : argv ≠ []) :
    (Run w argv opt).spawned = [(argv, opt.StdoutOnly)] := by
  unfold Run
  rw [if_neg (length_ne_zero_of_ne_nil h)]

theorem Run_copied (w : World) (argv : List Str) (opt : Options) (h : argv ≠ []) :
    (Run w argv opt).copied =
      [if opt.Markdown then wrapFenced (headerOf w argv opt ++ displayOf w argv opt) opt.FenceLang
        else headerOf w argv opt ++ displayOf w argv opt] := by
  unfold Run headerOf displayOf
  rw [if_neg (length_ne_zero_of_ne_nil h)]
  simp only [utf8_newline, utf8_empty]
  by_cases ht : opt.Truncate > 0
  · simp [ht]
  · rw [truncateLines_of_nonpos _ _ ht]
    simp [ht]

theorem Run_stdout (w : World) (argv : List Str) (opt : Options) (h : argv ≠ []) :
    (Run w argv opt).stdout =
      if opt.CopyOnly then []
      else headerOf w argv opt ++ displayOf w argv opt ++
        (if [nl] <:+ displayOf w argv opt then [] else [nl]) := by
  unfold Run headerOf displayOf
  rw [if_neg (length_ne_zero_of_ne_nil h)]
  simp only [utf8_newline, utf8_empty]
  have hs : ∀ d : Str, (if HasSuffix d [nl] = false then [nl] else ([] : Str))
      = if [nl] <:+ d then [] else [nl] := by
    intro d
    by_cases hd : [nl] <:+ d
    · simp [hd, (HasSuffix_iff d [nl]).2 hd]
    · have : HasSuffix d [nl] = false := by
        cases hb : HasSuffix d [nl] with
        | false => rfl
        | true => exact absurd ((HasSuffix_iff d [nl]).1 hb) hd
      simp [hd, this]
  by_cases ht : opt.Truncate > 0
  · cases hc : opt.CopyOnly <;> cases hi : opt.IncludeCmd <;> simp [ht, hs]
  · rw [truncateLines_of_nonpos _ _ ht]
    cases hc : opt.CopyOnly <;> cases hi : opt.IncludeCmd <;> simp [ht, hs]

theorem suffix_newline_append (a b : Str) :
    [nl] <:+ a ++ b ++ (if [nl] <:+ b then [] else [nl]) := by
  by_cases h : [nl] <:+ b
  · rw [if_pos h, List.append_nil]
    exact h.trans (List.suffix_append a b)
  · rw [if_neg h]
    exact List.suffix_append _ _

theorem RunE_exited (w : World) (f : Flags) (args : List Str) (h : args ≠ []) :
    (RunE w f args).exited = some (Run w args (buildOptions f)).code := by
  unfold RunE
  rw [if_neg (length_ne_zero_of_ne_nil h)]

theorem wrapFenced_prefix (content lang : Str) :
    utf8 "```" ++ lang ++ [nl] <+: wrapFenced content lang := by
  unfold wrapFenced
  simp only [utf8_newline]
  by_cases hl : lang = []
  · subst hl
    simp
  · simp [hl]

theorem wrapFenced_suffix (content lang : Str) :
    nl :: utf8 "```" <:+ wrapFenced content lang := by
  unfold wrapFenced
  have : utf8 "\n```" = nl :: utf8 "```" := by decide
  rw [this]
  exact List.suffix_append _ _

/-! ## Lines of a text and the scanner -/

theorem splitLines_nil : splitLines [] = [] := rfl

theorem splitLines_cons_newline (cs : Str) : splitLines (nl :: cs) = [] :: splitLines cs := by
  simp [splitLines]

theorem splitLines_ne_nil (s : Str) (h : s ≠ []) : splitLines s ≠ [] := by
  cases s with
  | nil => exact absurd rfl h
  | cons c cs =>
    unfold splitLines
    by_cases hc : c = nl
    · simp [hc]
    · rw [if_neg hc]
      cases splitLines cs <;> simp

theorem splitLines_step (s : Str) (h : s ≠ []) :
    splitLines s
      = s.takeWhile (fun b => b != nl) :: splitLines ((s.dropWhile (fun b => b != nl)).drop 1) := by
  induction s with
  | nil => exact absurd rfl h
  | cons c cs ih =>
    by_cases hc : c = nl
    · subst hc
      simp [splitLines_cons_newline]
    · have hb : (c != nl) = true := by simpa using hc
      have ht : List.takeWhile (fun b => b != nl) (c :: cs)
          = c :: List.takeWhile (fun b => b != nl) cs := by
        simp [List.takeWhile_cons, hb]
      have hd : List.dropWhile (fun b => b != nl) (c :: cs)
          = List.dropWhile (fun b => b != nl) cs := by
        simp [List.dropWhile_cons, hb]
      rw [ht, hd]
      cases cs with
      | nil => simp [splitLines, hc]
      | cons d ds =>
        have ih2 := ih (by simp)
        rw [splitLines, if_neg hc, ih2]

theorem Scan_nil : Scan [] = none := rfl

theorem Scan_of_lines (s l : Str) (ls : List Str) (h : splitLines s = l :: ls)
    (hshort : l.length < MaxScanTokenSize) :
    ∃ rest : Str, Scan s = some (dropCR l, rest) ∧ splitLines rest = ls ∧
      rest.length < s.length := by
  have hne : s ≠ [] := by
    intro h0
    rw [h0, splitLines_nil] at h
    exact absurd h (by simp)
  have hstep := splitLines_step s hne
  rw [h] at hstep
  have hl : s.takeWhile (fun b => b != nl) = l := (List.cons.inj hstep).1.symm
  have hls : splitLines ((s.dropWhile (fun b => b != nl)).drop 1) = ls :=
    (List.cons.inj hstep).2.symm
  refine ⟨(s.dropWhile (fun b => b != nl)).drop 1, ?_, hls, ?_⟩
  · unfold Scan
    rw [if_neg hne]
    simp only [hl]
    rw [if_neg (by omega)]
  · have h1 : (s.dropWhile (fun b => b != nl)).length ≤ s.length :=
      (List.dropWhile_suffix _).length_le
    have h2 : 0 < s.length := List.length_pos.2 hne
    rw [List.length_drop]
    omega

theorem Scan_rest_length (s text rest : Str) (h : Scan s = some (text, rest)) :
    rest.length < s.length := by
  unfold Scan at h
  by_cases hne : s = []
  · rw [if_pos hne] at h
    exact absurd h (by simp)
  · rw [if_neg hne] at h
    simp only at h
    by_cases hlong : (s.takeWhile (fun b => b != nl)).length ≥ MaxScanTokenSize
    · rw [if_pos hlong] at h
      exact absurd h (by simp)
    · rw [if_neg hlong] at h
      have hr : (s.dropWhile (fun b => b != nl)).drop 1 = rest :=
        (Prod.mk.inj (Option.some.inj h)).2
      have h1 : (s.dropWhile (fun b => b != nl)).length ≤ s.length :=
        (List.dropWhile_suffix _).length_le
      have h2 : 0 < s.length := List.length_pos.2 hne
      rw [← hr, List.length_drop]
      omega

/-- The loop of `truncateLines` ends: with more iterations allowed than there are
bytes of input it always produces the builder. -/
theorem truncLoop_terminates (n : Int) (fuel : Nat) :
    ∀ (data : Str) (lines : Int) (b : Str), data.length < fuel →
      ∃ r : Str, truncLoop n fuel data lines b = some r := by
  induction fuel with
  | zero => intro data lines b h; exact absurd h (Nat.not_lt_zero _)
  | succ fuel ih =>
    intro data lines b h
    unfold truncLoop
    cases hs : Scan data with
    | none => exact ⟨b, rfl⟩
    | some tr =>
      obtain ⟨text, rest⟩ := tr
      simp only
      by_cases hl : lines ≥ n
      · rw [if_pos hl]
        exact ⟨_, rfl⟩
      · rw [if_neg hl]
        have := Scan_rest_length data text rest hs
        exact ih rest _ _ (by omega)

/-- The loop run by `truncateLines` always yields the returned string: the iteration
bound is never what ends it. -/
theorem truncateLines_loop (s : Str) (n : Int) (hn : n > 0) :
    truncLoop n (s.length + 1) s 0 [] = some (truncateLines s n) := by
  obtain ⟨r, hr⟩ := truncLoop_terminates n (s.length + 1) s 0 [] (Nat.lt_succ_self _)
  unfold truncateLines
  rw [if_neg (by omega), hr]
  rfl

/-! ## The loop of `truncateLines` -/

theorem truncLoop_step (n : Int) (fuel : Nat) (data text rest : Str) (lines : Int) (b : Str)
    (hs : Scan data = some (text, rest)) (hl : ¬ lines ≥ n) :
    truncLoop n (fuel + 1) data lines b
      = truncLoop n fuel rest (lines + 1) ((if lines > 0 then b ++ [nl] else b) ++ text) := by
  rw [truncLoop, hs]
  simp only
  rw [if_neg hl]

theorem truncLoop_stop (n : Int) (fuel : Nat) (data text rest : Str) (lines : Int) (b : Str)
    (hs : Scan data = some (text, rest)) (hl : lines ≥ n) :
    truncLoop n (fuel + 1) data lines b = some (b ++ truncMarker) := by
  rw [truncLoop, hs]
  simp only
  rw [if_pos hl]

theorem truncLoop_end (n : Int) (fuel : Nat) (lines : Int) (b : Str) :
    truncLoop n (fuel + 1) [] lines b = some b := by
  rw [truncLoop, Scan_nil]

theorem appendLines_cons (k : Nat) (b t : Str) (ts : List Str) :
    appendLines k b (t :: ts)
      = appendLines (k + 1) ((if (k : Int) > 0 then b ++ [nl] else b) ++ t) ts := by
  rw [appendLines]
  by_cases hk : k > 0
  · have : (k : Int) > 0 := by omega
    rw [if_pos hk, if_pos this]
  · have : ¬ (k : Int) > 0 := by omega
    rw [if_neg hk, if_neg this]

/-- The loop on a text that has no more lines than the limit leaves room for. -/
theorem truncLoop_all (m fuel : Nat) :
    ∀ (data : Str) (k : Nat) (b : Str), data.length < fuel →
      k + (splitLines data).length ≤ m →
      (∀ l ∈ splitLines data, l.length < MaxScanTokenSize) →
      truncLoop (m : Int) fuel data (k : Int) b
        = some (appendLines k b ((splitLines data).map dropCR)) := by
  induction fuel with
  | zero => intro data k b h; exact absurd h (Nat.not_lt_zero _)
  | succ fuel ih =>
    intro data k b hlen hk hshort
    cases hL : splitLines data with
    | nil =>
      have hd : data = [] := by
        by_contra hne
        exact splitLines_ne_nil data hne hL
      subst hd
      rw [truncLoop_end]
      rfl
    | cons l ls =>
      rw [hL] at hk hshort
      obtain ⟨rest, hscan, hrest, hrl⟩ :=
        Scan_of_lines data l ls hL (hshort l (List.mem_cons_self _ _))
      have hkm : ¬ (k : Int) ≥ (m : Int) := by
        simp only [List.length_cons] at hk
        omega
      rw [truncLoop_step _ _ _ _ _ _ _ hscan hkm, List.map_cons, appendLines_cons]
      have hcast : (k : Int) + 1 = ((k + 1 : Nat) : Int) := by push_cast; rfl
      rw [hcast, ← hrest]
      apply ih
      · omega
      · rw [hrest]
        simp only [List.length_cons] at hk
        omega
      · rw [hrest]
        intro x hx
        exact hshort x (List.mem_cons_of_mem _ hx)

/-- The loop on a text with more lines than the limit leaves room for. -/
theorem truncLoop_cut (m fuel : Nat) :
    ∀ (data : Str) (k : Nat) (b : Str), data.length < fuel → k ≤ m →
      m < k + (splitLines data).length →
      (∀ l ∈ (splitLines data).take (m - k + 1), l.length < MaxScanTokenSize) →
      truncLoop (m : Int) fuel data (k : Int) b
        = some (appendLines k b (((splitLines data).take (m - k)).map dropCR) ++ truncMarker) := by
  induction fuel with
  | zero => intro data k b h; exact absurd h (Nat.not_lt_zero _)
  | succ fuel ih =>
    intro data k b hlen hkm hmore hshort
    cases hL : splitLines data with
    | nil =>
      rw [hL] at hmore
      simp only [List.length_nil] at hmore
      omega
    | cons l ls =>
      rw [hL] at hmore hshort
      simp only [List.length_cons] at hmore
      rw [List.take_succ_cons] at hshort
      obtain ⟨rest, hscan, hrest, hrl⟩ :=
        Scan_of_lines data l ls hL (hshort l (List.mem_cons_self _ _))
      by_cases hk : k = m
      · have hge : (k : Int) ≥ (m : Int) := by omega
        rw [truncLoop_stop _ _ _ _ _ _ _ hscan hge]
        have h0 : m - k = 0 := by omega
        rw [h0]
        rfl
      · have hlt : ¬ (k : Int) ≥ (m : Int) := by omega
        have hsucc : m - k = (m - (k + 1)) + 1 := by omega
        rw [truncLoop_step _ _ _ _ _ _ _ hscan hlt]
        rw [hsucc, List.take_succ_cons, List.map_cons, appendLines_cons]
        have hcast : (k : Int) + 1 = ((k + 1 : Nat) : Int) := by push_cast; rfl
        rw [hcast, ← hrest]
        apply ih
        · omega
        · omega
        · rw [hrest]
          omega
        · rw [hrest]
          intro x hx
          apply hshort x
          rw [hsucc]
          exact List.mem_cons_of_mem _ hx

theorem joinLines_nil : joinLines [] = [] := rfl

theorem joinLines_cons (t : Str) (ts : List Str) :
    joinLines (t :: ts) = t ++ (if ts = [] then [] else nl :: joinLines ts) := by
  cases ts with
  | nil => simp [joinLines, Join]
  | cons u us => simp [joinLines, Join]

theorem appendLines_eq (toks : List Str) :
    ∀ (k : Nat) (b : Str),
      appendLines k b toks
        = b ++ (if k > 0 ∧ toks ≠ [] then [nl] else []) ++ joinLines toks := by
  induction toks with
  | nil => intro k b; simp [appendLines, joinLines_nil]
  | cons t ts ih =>
    intro k b
    rw [appendLines, ih, joinLines_cons]
    by_cases hk : k > 0 <;> by_cases hts : ts = [] <;> simp [hk, hts, joinLines_nil]

theorem appendLines_start (toks : List Str) : appendLines 0 [] toks = joinLines toks := by
  rw [appendLines_eq]
  simp

/-! ## Lines, joined again -/

theorem suffix_newline_iff (s : Str) : [nl] <:+ s ↔ s.getLast? = some nl := by
  constructor
  · rintro ⟨t, rfl⟩
    simp
  · intro h
    exact ⟨s.dropLast, List.dropLast_append_getLast? nl (by simp [h])⟩

theorem mem_of_getLast? (s : Str) (x : UInt8) (h : s.getLast? = some x) : x ∈ s := by
  have := List.dropLast_append_getLast? x (by simp [h] : x ∈ s.getLast?)
  rw [← this]
  simp

theorem dropCR_of_not_mem (l : Str) (h : cr ∉ l) : dropCR l = l := by
  unfold dropCR
  rw [if_neg]
  intro hl
  exact h (mem_of_getLast? l cr hl)

theorem not_mem_dropCR (l : Str) (x : UInt8) (h : x ∉ l) : x ∉ dropCR l := by
  unfold dropCR
  by_cases hc : l.getLast? = some cr
  · rw [if_pos hc]
    intro hx
    exact h (List.dropLast_subset l hx)
  · rw [if_neg hc]
    exact h

theorem splitLines_cons_other (c : UInt8) (cs : Str) (hc : c ≠ nl) :
    splitLines (c :: cs)
      = match splitLines cs with
        | [] => [[c]]
        | l :: ls => (c :: l) :: ls := by
  rw [splitLines, if_neg hc]

theorem mem_splitLines (s : Str) :
    ∀ l ∈ splitLines s, nl ∉ l ∧ ∀ x ∈ l, x ∈ s := by
  induction s with
  | nil => intro l hl; simp [splitLines_nil] at hl
  | cons c cs ih =>
    intro l hl
    by_cases hc : c = nl
    · subst hc
      rw [splitLines_cons_newline] at hl
      rcases List.mem_cons.1 hl with h0 | h1
      · subst h0
        simp
      · exact ⟨(ih l h1).1, fun x hx => List.mem_cons_of_mem _ ((ih l h1).2 x hx)⟩
    · rw [splitLines_cons_other c cs hc] at hl
      cases hL : splitLines cs with
      | nil =>
        rw [hL] at hl
        simp only [List.mem_singleton] at hl
        subst hl
        refine ⟨?_, ?_⟩
        · simp only [List.mem_singleton]
          exact fun h => hc h.symm
        · intro x hx
          simp only [List.mem_singleton] at hx
          subst hx
          exact List.mem_cons_self _ _
      | cons l0 ls =>
        rw [hL] at hl ih
        simp only at hl
        rcases List.mem_cons.1 hl with h0 | h1
        · subst h0
          have i0 := ih l0 (List.mem_cons_self _ _)
          refine ⟨?_, ?_⟩
          · intro hm
            rcases List.mem_cons.1 hm with a | a
            · exact hc a.symm
            · exact i0.1 a
          · intro x hx
            rcases List.mem_cons.1 hx with a | a
            · subst a
              exact List.mem_cons_self _ _
            · exact List.mem_cons_of_mem _ (i0.2 x a)
        · have i1 := ih l (List.mem_cons_of_mem _ h1)
          exact ⟨i1.1, fun x hx => List.mem_cons_of_mem _ (i1.2 x hx)⟩

theorem trimFinalNewline_cons (c : UInt8) (cs : Str) (h : cs ≠ []) :
    trimFinalNewline (c :: cs) = c :: trimFinalNewline cs := by
  unfold trimFinalNewline
  cases cs with
  | nil => exact absurd rfl h
  | cons d ds =>
    rw [List.getLast?_cons_cons]
    by_cases hl : (d :: ds).getLast? = some nl
    · rw [if_pos hl, if_pos hl]
      rfl
    · rw [if_neg hl, if_neg hl]

/-- Joining the lines of a text gives the text back, up to its final newline. -/
theorem joinLines_splitLines (s : Str) : joinLines (splitLines s) = trimFinalNewline s := by
  induction s with
  | nil => rfl
  | cons c cs ih =>
    by_cases hcs : cs = []
    · subst hcs
      by_cases hc : c = nl
      · subst hc
        decide
      · rw [splitLines_cons_other c [] hc, splitLines_nil]
        have : ¬ [c].getLast? = some nl := by simpa using hc
        simp [joinLines, Join, trimFinalNewline, hc]
    · rw [trimFinalNewline_cons c cs hcs, ← ih]
      have hne := splitLines_ne_nil cs hcs
      by_cases hc : c = nl
      · subst hc
        rw [splitLines_cons_newline, joinLines_cons, if_neg hne]
        rfl
      · rw [splitLines_cons_other c cs hc]
        cases hL : splitLines cs with
        | nil => exact absurd hL hne
        | cons l ls =>
          simp only
          rw [joinLines_cons, joinLines_cons]
          rfl

theorem splitLines_append_newline (a r : Str) (ha : nl ∉ a) :
    splitLines (a ++ nl :: r) = a :: splitLines r := by
  induction a with
  | nil => exact splitLines_cons_newline r
  | cons c cs ih =>
    have hc : c ≠ nl := fun h => ha (by simp [h])
    have hcs : nl ∉ cs := fun h => ha (List.mem_cons_of_mem _ h)
    rw [List.cons_append, splitLines_cons_other c _ hc, ih hcs]

theorem splitLines_single (a : Str) (ha : nl ∉ a) (hne : a ≠ []) : splitLines a = [a] := by
  induction a with
  | nil => exact absurd rfl hne
  | cons c cs ih =>
    have hc : c ≠ nl := fun h => ha (by simp [h])
    have hcs : nl ∉ cs := fun h => ha (List.mem_cons_of_mem _ h)
    rw [splitLines_cons_other c _ hc]
    by_cases h0 : cs = []
    · subst h0
      rfl
    · rw [ih hcs h0]

theorem splitLines_joinLines_marker (toks : List Str) (hne : toks ≠ [])
    (hno : ∀ t ∈ toks, nl ∉ t) :
    (splitLines (joinLines toks ++ truncMarker)).length = toks.length := by
  have hm : nl ∉ truncMarker := by decide
  have hm0 : truncMarker ≠ [] := by decide
  induction toks with
  | nil => exact absurd rfl hne
  | cons t ts ih =>
    have ht : nl ∉ t := hno t (List.mem_cons_self _ _)
    by_cases hts : ts = []
    · subst hts
      rw [joinLines_cons, if_pos rfl, List.append_nil, splitLines_single]
      · rfl
      · intro h
        rcases List.mem_append.1 h with a | a
        · exact ht a
        · exact hm a
      · intro h
        exact hm0 (List.append_eq_nil.1 h).2
    · rw [joinLines_cons, if_neg hts, List.append_assoc, List.cons_append,
        splitLines_append_newline _ _ ht, List.length_cons, List.length_cons,
        ih hts (fun x hx => hno x (List.mem_cons_of_mem _ hx))]

/-! ## Exit codes -/

/-- C1: for a non-empty argv, whatever the options and whatever the clipboard backend
answers, `Run` returns the exit code `runCapture` produced for the command together
with a nil error; replacing the clipboard backend by any other never changes the
returned code; and `rootCmd.RunE` ends the process with that code. -/
theorem Run_returns_capture_code (w : World) (argv : List Str) (opt : Options)
    (h : argv ≠ []) :
    (Run w argv opt).code = (runCapture w argv opt.StdoutOnly).2 ∧
    (Run w argv opt).err = none ∧
    (∀ backend : Str → Option Str,
      (Run { w with clipboardCopy := backend } argv opt).code = (Run w argv opt).code) ∧
    (∀ f : Flags, (RunE w f argv).exited = some (runCapture w argv f.flagStdoutOnly).2) := by
  refine ⟨Run_code w argv opt h, Run_err w argv opt h, ?_, ?_⟩
  · intro backend
    rw [Run_code _ argv opt h, Run_code w argv opt h]
    rfl
  · intro f
    rw [RunE_exited w f argv h, Run_code w argv _ h]
    rfl

theorem Run_returns_capture_code_witness :
    echoHi ≠ [] ∧
    ((Run brokenClipboardWorld echoHi defaultOptions).code
        = (runCapture brokenClipboardWorld echoHi defaultOptions.StdoutOnly).2 ∧
      (Run brokenClipboardWorld echoHi defaultOptions).err = none ∧
      (∀ backend : Str → Option Str,
        (Run { brokenClipboardWorld with clipboardCopy := backend } echoHi defaultOptions).code
          = (Run brokenClipboardWorld echoHi defaultOptions).code) ∧
      (∀ f : Flags, (RunE brokenClipboardWorld f echoHi).exited
          = some (runCapture brokenClipboardWorld echoHi f.flagStdoutOnly).2)) :=
  ⟨by decide, Run_returns_capture_code brokenClipboardWorld echoHi defaultOptions (by decide)⟩

/-- C2, as stated, fails: on a machine where the command cannot be started the run
error is not an exit-status error, and `exitCode`, `runCapture` and `Run` give 1,
not 127. -/
theorem spawn_failure_code_is_not_127 :
    (notFoundWorld.cmdRun [utf8 "nosuchcmd"] false).2
      = some (RunError.notStarted (utf8 "executable file not found in $PATH")) ∧
    exitCode (notFoundWorld.cmdRun [utf8 "nosuchcmd"] false).2 ≠ 127 ∧
    (runCapture notFoundWorld [utf8 "nosuchcmd"] false).2 ≠ 127 ∧
    (Run notFoundWorld [utf8 "nosuchcmd"] defaultOptions).code ≠ 127 := by
  refine ⟨rfl, ?_, ?_, ?_⟩ <;> decide

/-- C2, amended: when the command cannot be started (the run error is not an
exit-status error), the exit code derived by `exitCode`, and hence returned by
`runCapture` and `Run`, is 1. -/
theorem spawn_failure_code_is_1 (w : World) (argv : List Str) (opt : Options) (msg : Str)
    (h : argv ≠ [])
    (hs : (w.cmdRun argv opt.StdoutOnly).2 = some (RunError.notStarted msg)) :
    exitCode (w.cmdRun argv opt.StdoutOnly).2 = 1 ∧
    (runCapture w argv opt.StdoutOnly).2 = 1 ∧
    (Run w argv opt).code = 1 := by
  have h1 : exitCode (w.cmdRun argv opt.StdoutOnly).2 = 1 := by
    rw [hs]
    rfl
  refine ⟨h1, h1, ?_⟩
  rw [Run_code w argv opt h]
  exact h1

theorem spawn_failure_code_is_1_witness :
    [utf8 "nosuchcmd"] ≠ [] ∧
    (notFoundWorld.cmdRun [utf8 "nosuchcmd"] defaultOptions.StdoutOnly).2
      = some (RunError.notStarted (utf8 "executable file not found in $PATH")) ∧
    exitCode (notFoundWorld.cmdRun [utf8 "nosuchcmd"] defaultOptions.StdoutOnly).2 = 1 ∧
    (runCapture notFoundWorld [utf8 "nosuchcmd"] defaultOptions.StdoutOnly).2 = 1 ∧
    (Run notFoundWorld [utf8 "nosuchcmd"] defaultOptions).code = 1 :=
  ⟨by decide, rfl,
    spawn_failure_code_is_1 notFoundWorld [utf8 "nosuchcmd"] defaultOptions
      (utf8 "executable file not found in $PATH") (by decide) rfl⟩

/-- C3: with no positional argument the program writes the error to standard error,
spawns nothing and calls no clipboard backend, but the process ends with code 1:
`RunE` returns before `Run`, whose own answer to an empty argv is 127, is reached. -/
theorem Execute_no_command (w : World) (usage : Str) (f : Flags) (opt : Options) :
    (Execute w usage f []).exitCode = 1 ∧
    (Execute w usage f []).stderr
      = utf8 "Error: missing command. Try: cpout -h\n" ++ usage ++ utf8 "\n" ∧
    (Execute w usage f []).stdout = [] ∧
    (Execute w usage f []).spawned = [] ∧
    (Execute w usage f []).copied = [] ∧
    (Run w [] opt).code = 127 ∧
    (Run w [] opt).spawned = [] ∧
    (Run w [] opt).copied = [] := by
  refine ⟨rfl, ?_, rfl, rfl, rfl, rfl, rfl, rfl⟩
  have : utf8 "Error: missing command. Try: cpout -h\n"
      = utf8 "Error: " ++ utf8 "missing command. Try: cpout -h" ++ utf8 "\n" := by decide
  rw [this]
  simp [Execute, cobraExecute, RunE]

/-! ## The scenario `echo hi` -/

/-- C6, as stated, fails: the payload handed to the clipboard keeps the final newline
of the captured output. -/
theorem echo_hi_payload_keeps_newline :
    echoWorld.GOOS ≠ utf8 "windows" ∧
    echoWorld.cmdRun echoHi false = (utf8 "hi\n", none) ∧
    (Run echoWorld echoHi defaultOptions).copied ≠ [utf8 "❯ echo hi\nhi"] := by
  refine ⟨?_, rfl, ?_⟩ <;> decide

/-- C6, amended: for `echo hi` with the default options on a target other than
Windows, when the captured output is `hi` and a newline with status 0, the text
printed is the header line and the output, the payload handed to the clipboard is
that same text, with its final newline, and `Run` returns 0. -/
theorem echo_hi_scenario (w : World) (hos : w.GOOS ≠ utf8 "windows")
    (hrun : w.cmdRun echoHi false = (utf8 "hi\n", none)) :
    (Run w echoHi defaultOptions).stdout = utf8 "❯ echo hi\nhi\n" ∧
    (Run w echoHi defaultOptions).copied = [utf8 "❯ echo hi\nhi\n"] ∧
    (Run w echoHi defaultOptions).code = 0 ∧
    (Run w echoHi defaultOptions).err = none := by
  have hne : echoHi ≠ [] := by decide
  have hh : headerOf w echoHi defaultOptions = utf8 "❯ echo hi\n" := by
    unfold headerOf headerLine
    rw [if_neg hos]
    decide
  have hd : displayOf w echoHi defaultOptions = utf8 "hi\n" := by
    unfold displayOf runCapture
    show truncateLines (w.cmdRun echoHi false).1 0 = _
    rw [hrun]
    decide
  refine ⟨?_, ?_, ?_, Run_err w echoHi defaultOptions hne⟩
  · rw [Run_stdout w echoHi defaultOptions hne, hh, hd]
    decide
  · rw [Run_copied w echoHi defaultOptions hne, hh, hd]
    decide
  · rw [Run_code w echoHi defaultOptions hne]
    unfold runCapture
    show exitCode (w.cmdRun echoHi false).2 = 0
    rw [hrun]
    rfl

theorem echo_hi_scenario_witness :
    echoWorld.GOOS ≠ utf8 "windows" ∧
    echoWorld.cmdRun echoHi false = (utf8 "hi\n", none) ∧
    (Run echoWorld echoHi defaultOptions).stdout = utf8 "❯ echo hi\nhi\n" ∧
    (Run echoWorld echoHi defaultOptions).copied = [utf8 "❯ echo hi\nhi\n"] ∧
    (Run echoWorld echoHi defaultOptions).code = 0 ∧
    (Run echoWorld echoHi defaultOptions).err = none :=
  ⟨by decide, rfl, echo_hi_scenario echoWorld (by decide) rfl⟩

/-! ## Fencing and printing -/

/-- C7, as stated, fails: `Run` looks at `Markdown` only; with a fence language set
and `Markdown` off the payload is not fenced. -/
theorem fence_lang_alone_does_not_fence :
    pythonNoMarkdown.FenceLang ≠ [] ∧
    (Run echoWorld echoHi pythonNoMarkdown).copied = [utf8 "❯ echo hi\nhi\n"] ∧
    ¬ (utf8 "```" ++ pythonNoMarkdown.FenceLang ++ [nl] <+: utf8 "❯ echo hi\nhi\n") := by
  refine ⟨?_, ?_, ?_⟩ <;> decide

/-- C7, amended: for every non-empty argv and every options value with a non-empty
`FenceLang` whose `Markdown` is on, or which was built by `rootCmd.RunE` from the
flags (whatever the markdown flag), the one payload handed to the clipboard begins
with three backticks, the fence language and a newline, and ends with a newline and
three backticks. -/
theorem fence_lang_payload_fenced (w : World) (argv : List Str) (opt : Options)
    (h : argv ≠ []) (hl : opt.FenceLang ≠ [])
    (hm : opt.Markdown = true ∨ ∃ f : Flags, opt = buildOptions f) :
    ∃ payload : Str, (Run w argv opt).copied = [payload] ∧
      utf8 "```" ++ opt.FenceLang ++ [nl] <+: payload ∧
      nl :: utf8 "```" <:+ payload := by
  have hmd : opt.Markdown = true := by
    rcases hm with hm | ⟨f, hf⟩
    · exact hm
    · subst hf
      have hl2 : f.flagFenceLang ≠ [] := hl
      simp [buildOptions, utf8_empty, hl2]
  refine ⟨wrapFenced (headerOf w argv opt ++ displayOf w argv opt) opt.FenceLang, ?_,
    wrapFenced_prefix _ _, wrapFenced_suffix _ _⟩
  rw [Run_copied w argv opt h, if_pos hmd]

theorem fence_lang_payload_fenced_witness :
    echoHi ≠ [] ∧ (buildOptions pythonFlags).FenceLang ≠ [] ∧
    ∃ payload : Str, (Run echoWorld echoHi (buildOptions pythonFlags)).copied = [payload] ∧
      utf8 "```" ++ (buildOptions pythonFlags).FenceLang ++ [nl] <+: payload ∧
      nl :: utf8 "```" <:+ payload :=
  ⟨by decide, by decide,
    fence_lang_payload_fenced echoWorld echoHi (buildOptions pythonFlags) (by decide)
      (by decide) (Or.inr ⟨pythonFlags, rfl⟩)⟩

/-- C9: for a non-empty argv, with `CopyOnly` off the text written to standard output
is the header (empty when `IncludeCmd` is off), the truncated capture, and one more
newline exactly when the truncated capture does not end in one; it ends with a
newline and is the same whatever `Markdown` and `FenceLang` are.  With `CopyOnly` on
nothing is written to standard output. -/
theorem Run_stdout_text (w : World) (argv : List Str) (opt : Options) (h : argv ≠ []) :
    (opt.CopyOnly = false →
      (Run w argv opt).stdout
        = (if opt.IncludeCmd then headerLine w.GOOS argv ++ [nl] else []) ++
          truncateLines (runCapture w argv opt.StdoutOnly).1 opt.Truncate ++
          (if [nl] <:+ truncateLines (runCapture w argv opt.StdoutOnly).1 opt.Truncate
            then [] else [nl]) ∧
      [nl] <:+ (Run w argv opt).stdout ∧
      ∀ (md : Bool) (lang : Str),
        (Run w argv { opt with Markdown := md, FenceLang := lang }).stdout
          = (Run w argv opt).stdout) ∧
    (opt.CopyOnly = true → (Run w argv opt).stdout = []) := by
  constructor
  · intro hc
    have hout := Run_stdout w argv opt h
    rw [hc] at hout
    simp only [Bool.false_eq_true, if_false] at hout
    refine ⟨hout, ?_, ?_⟩
    · rw [hout]
      exact suffix_newline_append _ _
    · intro md lang
      rw [Run_stdout w argv _ h, Run_stdout w argv opt h]
      rfl
  · intro hc
    rw [Run_stdout w argv opt h, hc]
    rfl

theorem Run_stdout_text_witness :
    echoHi ≠ [] ∧
    ((pythonNoMarkdown.CopyOnly = false →
      (Run echoWorld echoHi pythonNoMarkdown).stdout
        = (if pythonNoMarkdown.IncludeCmd then headerLine echoWorld.GOOS echoHi ++ [nl] else []) ++
          truncateLines (runCapture echoWorld echoHi pythonNoMarkdown.StdoutOnly).1
            pythonNoMarkdown.Truncate ++
          (if [nl] <:+ truncateLines (runCapture echoWorld echoHi pythonNoMarkdown.StdoutOnly).1
              pythonNoMarkdown.Truncate
            then [] else [nl]) ∧
      [nl] <:+ (Run echoWorld echoHi pythonNoMarkdown).stdout ∧
      ∀ (md : Bool) (lang : Str),
        (Run echoWorld echoHi { pythonNoMarkdown with Markdown := md, FenceLang := lang }).stdout
          = (Run echoWorld echoHi pythonNoMarkdown).stdout) ∧
    (pythonNoMarkdown.CopyOnly = true → (Run echoWorld echoHi pythonNoMarkdown).stdout = [])) :=
  ⟨by decide, Run_stdout_text echoWorld echoHi pythonNoMarkdown (by decide)⟩

/-! ## The Linux clipboard backend -/

/-- C10: on Linux `Copy` looks `xclip` up first.  When it is found, `Copy` invokes it
and nothing else (`xsel` is neither looked up nor invoked) and succeeds exactly when
that invocation succeeds.  When `xclip` is absent and `xsel` found, `Copy` invokes
`xsel` and succeeds exactly when that invocation succeeds.  When both are absent
`Copy` invokes nothing and fails with an error whose text names `xclip` and `xsel`. -/
theorem Linux_Copy_first_present_tool (t : Linux.Tools) (s : Str) :
    (t.LookPath (utf8 "xclip") = true →
      (Linux.Copy t s).2
        = [Linux.ToolCall.look (utf8 "xclip"),
           Linux.ToolCall.invoke (utf8 "xclip") [utf8 "-selection", utf8 "clipboard"] s] ∧
      ((Linux.Copy t s).1 = none ↔
        (t.CombinedOutput (utf8 "xclip") [utf8 "-selection", utf8 "clipboard"] s).2 = none)) ∧
    (t.LookPath (utf8 "xclip") = false → t.LookPath (utf8 "xsel") = true →
      (Linux.Copy t s).2
        = [Linux.ToolCall.look (utf8 "xclip"), Linux.ToolCall.look (utf8 "xsel"),
           Linux.ToolCall.invoke (utf8 "xsel") [utf8 "--clipboard", utf8 "--input"] s] ∧
      ((Linux.Copy t s).1 = none ↔
        (t.CombinedOutput (utf8 "xsel") [utf8 "--clipboard", utf8 "--input"] s).2 = none)) ∧
    (t.LookPath (utf8 "xclip") = false → t.LookPath (utf8 "xsel") = false →
      (Linux.Copy t s).2 = [Linux.ToolCall.look (utf8 "xclip"), Linux.ToolCall.look (utf8 "xsel")] ∧
      ∃ msg : Str, (Linux.Copy t s).1 = some msg ∧
        utf8 "xclip" <:+: msg ∧ utf8 "xsel" <:+: msg) ∧
    (∀ (args : List Str) (stdin : Str),
      Linux.ToolCall.invoke (utf8 "xsel") args stdin ∈ (Linux.Copy t s).2 →
        t.LookPath (utf8 "xclip") = false) := by
  refine ⟨?_, ?_, ?_, ?_⟩
  · intro hx
    unfold Linux.Copy
    rw [if_pos hx]
    cases hr : (t.CombinedOutput (utf8 "xclip") [utf8 "-selection", utf8 "clipboard"] s).2 <;>
      simp [hr]
  · intro hx hs
    unfold Linux.Copy
    rw [if_neg (by simp [hx]), if_pos hs]
    cases hr : (t.CombinedOutput (utf8 "xsel") [utf8 "--clipboard", utf8 "--input"] s).2 <;>
      simp [hr]
  · intro hx hs
    unfold Linux.Copy
    rw [if_neg (by simp [hx]), if_neg (by simp [hs])]
    refine ⟨rfl, _, rfl, ?_, ?_⟩ <;> decide
  · intro args stdin hmem
    cases hx : t.LookPath (utf8 "xclip") with
    | false => rfl
    | true =>
      exfalso
      unfold Linux.Copy at hmem
      rw [if_pos hx] at hmem
      have hne : utf8 "xsel" ≠ utf8 "xclip" := by decide
      cases hr : (t.CombinedOutput (utf8 "xclip") [utf8 "-selection", utf8 "clipboard"] s).2 <;>
        simp [hr, hne] at hmem

theorem Linux_Copy_first_present_tool_witness :
    (xclipFails.LookPath (utf8 "xclip") = true ∧
      (Linux.Copy xclipFails (utf8 "hi")).2
        = [Linux.ToolCall.look (utf8 "xclip"),
           Linux.ToolCall.invoke (utf8 "xclip") [utf8 "-selection", utf8 "clipboard"]
             (utf8 "hi")] ∧
      ((Linux.Copy xclipFails (utf8 "hi")).1 = none ↔
        (xclipFails.CombinedOutput (utf8 "xclip") [utf8 "-selection", utf8 "clipboard"]
          (utf8 "hi")).2 = none)) ∧
    (onlyXsel.LookPath (utf8 "xclip") = false ∧ onlyXsel.LookPath (utf8 "xsel") = true ∧
      (Linux.Copy onlyXsel (utf8 "hi")).2
        = [Linux.ToolCall.look (utf8 "xclip"), Linux.ToolCall.look (utf8 "xsel"),
           Linux.ToolCall.invoke (utf8 "xsel") [utf8 "--clipboard", utf8 "--input"]
             (utf8 "hi")] ∧
      ((Linux.Copy onlyXsel (utf8 "hi")).1 = none ↔
        (onlyXsel.CombinedOutput (utf8 "xsel") [utf8 "--clipboard", utf8 "--input"]
          (utf8 "hi")).2 = none)) ∧
    (noTools.LookPath (utf8 "xclip") = false ∧ noTools.LookPath (utf8 "xsel") = false ∧
      (Linux.Copy noTools (utf8 "hi")).2
        = [Linux.ToolCall.look (utf8 "xclip"), Linux.ToolCall.look (utf8 "xsel")] ∧
      ∃ msg : Str, (Linux.Copy noTools (utf8 "hi")).1 = some msg ∧
        utf8 "xclip" <:+: msg ∧ utf8 "xsel" <:+: msg) :=
  ⟨⟨rfl, (Linux_Copy_first_present_tool xclipFails (utf8 "hi")).1 rfl⟩,
    ⟨by decide, by decide,
      (Linux_Copy_first_present_tool onlyXsel (utf8 "hi")).2.1 (by decide) (by decide)⟩,
    ⟨rfl, rfl, (Linux_Copy_first_present_tool noTools (utf8 "hi")).2.2.1 rfl rfl⟩⟩

/-! ## Shell quoting -/

theorem ReplaceAll_cons (c : UInt8) (cs : Str) (old : UInt8) (new : Str) :
    ReplaceAll (c :: cs) old new = (if c = old then new else [c]) ++ ReplaceAll cs old new := by
  simp [ReplaceAll]

theorem posixUnquoteFrom_true_quote (cs : Str) :
    posixUnquoteFrom true (sq :: cs) = posixUnquoteFrom false cs := by
  simp [posixUnquoteFrom]

theorem posixUnquoteFrom_true_other (c : UInt8) (cs : Str) (hc : c ≠ sq) :
    posixUnquoteFrom true (c :: cs) = (posixUnquoteFrom true cs).map (fun r => c :: r) := by
  simp [posixUnquoteFrom, hc]

theorem posixUnquoteFrom_false_quote (cs : Str) :
    posixUnquoteFrom false (sq :: cs) = posixUnquoteFrom true cs := by
  rw [posixUnquoteFrom.eq_def]
  simp

theorem posixUnquoteFrom_false_backslash (d : UInt8) (ds : Str) (hd : d ≠ nl) :
    posixUnquoteFrom false (bslash :: d :: ds)
      = (posixUnquoteFrom false ds).map (fun r => d :: r) := by
  have hb : bslash ≠ sq := by decide
  simp [posixUnquoteFrom, hb, hd]

theorem posixUnquoteFrom_quoted (s rest : Str) :
    posixUnquoteFrom true (ReplaceAll s sq escapedQuote ++ rest)
      = (posixUnquoteFrom true rest).map (fun r => s ++ r) := by
  induction s with
  | nil => simp [ReplaceAll]
  | cons c cs ih =>
    rw [ReplaceAll_cons]
    by_cases hc : c = sq
    · subst hc
      have hshape : (if sq = sq then escapedQuote else [sq]) ++ ReplaceAll cs sq escapedQuote ++ rest
          = sq :: bslash :: sq :: sq :: (ReplaceAll cs sq escapedQuote ++ rest) := by
        simp [escapedQuote]
      rw [hshape, posixUnquoteFrom_true_quote,
        posixUnquoteFrom_false_backslash sq _ (by decide),
        posixUnquoteFrom_false_quote, ih, Option.map_map]
      rfl
    · have hshape : (if c = sq then escapedQuote else [c]) ++ ReplaceAll cs sq escapedQuote ++ rest
          = c :: (ReplaceAll cs sq escapedQuote ++ rest) := by
        simp [hc]
      rw [hshape, posixUnquoteFrom_true_other c _ hc, ih, Option.map_map]
      rfl

theorem ContainsAny_of_mem (s chars : Str) (b : UInt8) (hs : b ∈ s) (hc : b ∈ chars) :
    ContainsAny s chars = true := by
  unfold ContainsAny
  rw [List.any_eq_true]
  exact ⟨b, hs, by simpa using hc⟩

/-- C8: for every argument that contains a single quote, removing the quotes from
`shellQuote`'s output the way a POSIX shell does (single-quoted segments literal, a
backslash-escaped quote outside quotes a literal quote, segments concatenated) gives
back the argument. -/
theorem shellQuote_unquote_roundtrip (s : Str) (h : sq ∈ s) :
    posixUnquote (shellQuote s) = some s := by
  have hne : s ≠ [] := List.ne_nil_of_mem h
  have hany : ContainsAny s shellMeta = true := ContainsAny_of_mem s shellMeta sq h (by decide)
  unfold shellQuote posixUnquote
  rw [if_neg hne, if_pos hany]
  show posixUnquoteFrom false (sq :: (ReplaceAll s sq escapedQuote ++ [sq])) = some s
  rw [posixUnquoteFrom_false_quote, posixUnquoteFrom_quoted, posixUnquoteFrom_true_quote]
  simp [posixUnquoteFrom]

theorem shellQuote_unquote_roundtrip_witness :
    sq ∈ utf8 "it's" ∧ posixUnquote (shellQuote (utf8 "it's")) = some (utf8 "it's") :=
  ⟨by decide, shellQuote_unquote_roundtrip (utf8 "it's") (by decide)⟩

/-! ## Truncation -/

theorem trimFinalNewline_eq_self_iff (s : Str) : trimFinalNewline s = s ↔ ¬ [nl] <:+ s := by
  rw [suffix_newline_iff]
  unfold trimFinalNewline
  by_cases h : s.getLast? = some nl
  · rw [if_pos h]
    constructor
    · intro hd
      exfalso
      have hl := congrArg List.length hd
      have hne : s ≠ [] := by
        intro h0
        rw [h0] at h
        simp at h
      have hpos : 0 < s.length := List.length_pos.2 hne
      rw [List.length_dropLast] at hl
      omega
    · intro hn
      exact absurd h hn
  · rw [if_neg h]
    exact ⟨fun _ => h, fun _ => rfl⟩

theorem map_dropCR_of_not_mem (s : Str) (h : cr ∉ s) :
    (splitLines s).map dropCR = splitLines s := by
  conv_rhs => rw [← List.map_id (splitLines s)]
  apply List.map_congr_left
  intro l hl
  exact dropCR_of_not_mem l (fun hc => h ((mem_splitLines s l hl).2 cr hc))

/-- When the first line has `MaxScanTokenSize` bytes or more the scanner gives up at
once and `truncateLines` returns the empty string. -/
theorem truncateLines_first_line_too_long (s : Str) (n : Int) (hn : n > 0)
    (hlong : (s.takeWhile (fun b => b != nl)).length ≥ MaxScanTokenSize) :
    truncateLines s n = [] := by
  have hscan : Scan s = none := by
    unfold Scan
    by_cases h0 : s = []
    · rw [if_pos h0]
    · rw [if_neg h0]
      simp only
      rw [if_pos hlong]
  unfold truncateLines
  rw [if_neg (by omega), truncLoop, hscan]
  rfl

/-- C4, as stated, fails: the marker is written right after the last kept line, with
no newline before it, so that a 5-line text cut at 2 has 2 lines, not 3. -/
theorem truncateLines_marker_not_on_own_line :
    (2 : Int) > 0 ∧
    (splitLines (utf8 "l1\nl2\nl3\nl4\nl5")).length = 5 ∧
    truncateLines (utf8 "l1\nl2\nl3\nl4\nl5") 2 = utf8 "l1\nl2… (truncated)" ∧
    truncateLines (utf8 "l1\nl2\nl3\nl4\nl5") 2 ≠ utf8 "l1\nl2\n… (truncated)" ∧
    (splitLines (truncateLines (utf8 "l1\nl2\nl3\nl4\nl5") 2)).length = 2 := by
  refine ⟨?_, ?_, ?_, ?_, ?_⟩ <;> decide

/-- C4, amended: for every n > 0 and every text with more than n lines, the first
n + 1 of them shorter than `MaxScanTokenSize` bytes, `truncateLines` returns the
first n lines, each without its trailing carriage return, joined by newlines and
followed at once, with no newline in between, by the marker; the result has
exactly n lines. -/
theorem truncateLines_more_lines (s : Str) (n : Int) (hn : n > 0)
    (hmore : ((splitLines s).length : Int) > n)
    (hshort : ∀ l ∈ (splitLines s).take (n.toNat + 1), l.length < MaxScanTokenSize) :
    truncateLines s n
      = joinLines (((splitLines s).take n.toNat).map dropCR) ++ truncMarker ∧
    (splitLines (truncateLines s n)).length = n.toNat := by
  obtain ⟨m, rfl⟩ := Int.eq_ofNat_of_zero_le (Int.le_of_lt hn)
  have hm : (m : Int).toNat = m := Int.toNat_ofNat m
  rw [hm] at hshort ⊢
  have hmpos : 0 < m := by omega
  have hlen : m < (splitLines s).length := by omega
  have hloop := truncLoop_cut m (s.length + 1) s 0 [] (Nat.lt_succ_self _) (Nat.zero_le _)
    (by omega) (by simpa using hshort)
  rw [Nat.sub_zero, appendLines_start] at hloop
  have hres : truncateLines s (m : Int)
      = joinLines (((splitLines s).take m).map dropCR) ++ truncMarker := by
    unfold truncateLines
    rw [if_neg (by omega)]
    have h0 : ((0 : Nat) : Int) = 0 := rfl
    rw [h0] at hloop
    rw [hloop]
    rfl
  refine ⟨hres, ?_⟩
  rw [hres, splitLines_joinLines_marker]
  · rw [List.length_map, List.length_take]
    omega
  · intro h0
    have hl := congrArg List.length h0
    rw [List.length_map, List.length_take] at hl
    simp only [List.length_nil] at hl
    omega
  · intro t ht
    obtain ⟨l, hl, rfl⟩ := List.mem_map.1 ht
    exact not_mem_dropCR l nl (mem_splitLines s l (List.mem_of_mem_take hl)).1

theorem truncateLines_more_lines_witness :
    (2 : Int) > 0 ∧
    truncateLines (utf8 "l1\r\nl2\r\nl3\r\nl4\r\nl5\r\n") 2
      = joinLines (((splitLines (utf8 "l1\r\nl2\r\nl3\r\nl4\r\nl5\r\n")).take
          (2 : Int).toNat).map dropCR) ++ truncMarker ∧
    (splitLines (truncateLines (utf8 "l1\r\nl2\r\nl3\r\nl4\r\nl5\r\n") 2)).length
      = (2 : Int).toNat :=
  ⟨by decide,
    truncateLines_more_lines (utf8 "l1\r\nl2\r\nl3\r\nl4\r\nl5\r\n") 2 (by decide) (by decide)
      (by decide)⟩

/-- C5, as stated, fails: a text of one line that ends in a newline comes back
without it, and a text with `\r\n` line endings comes back with `\n` ones. -/
theorem truncateLines_short_text_changed :
    (1 : Int) > 0 ∧
    ((splitLines (utf8 "a\n")).length : Int) ≤ 1 ∧
    truncateLines (utf8 "a\n") 1 = utf8 "a" ∧
    truncateLines (utf8 "a\n") 1 ≠ utf8 "a\n" ∧
    ((splitLines (utf8 "a\r\nb")).length : Int) ≤ 2 ∧
    truncateLines (utf8 "a\r\nb") 2 = utf8 "a\nb" ∧
    truncateLines (utf8 "a\r\nb") 2 ≠ utf8 "a\r\nb" := by
  refine ⟨?_, ?_, ?_, ?_, ?_, ?_, ?_⟩ <;> decide

/-- C5, amended: for every n > 0 and every text of at most n lines, each shorter than
`MaxScanTokenSize` bytes, `truncateLines` returns the lines of the text, each
without its trailing carriage return, joined by single newlines, and appends no
marker.  When the text holds no carriage return this is the text without its final
newline, so the text comes back byte for byte exactly when it does not end in a
newline. -/
theorem truncateLines_few_lines (s : Str) (n : Int) (hn : n > 0)
    (hfew : ((splitLines s).length : Int) ≤ n)
    (hshort : ∀ l ∈ splitLines s, l.length < MaxScanTokenSize) :
    truncateLines s n = joinLines ((splitLines s).map dropCR) ∧
    (cr ∉ s →
      truncateLines s n = trimFinalNewline s ∧
      (truncateLines s n = s ↔ ¬ [nl] <:+ s)) := by
  obtain ⟨m, rfl⟩ := Int.eq_ofNat_of_zero_le (Int.le_of_lt hn)
  have hloop := truncLoop_all m (s.length + 1) s 0 [] (Nat.lt_succ_self _) (by omega) hshort
  rw [appendLines_start] at hloop
  have hres : truncateLines s (m : Int) = joinLines ((splitLines s).map dropCR) := by
    unfold truncateLines
    rw [if_neg (by omega)]
    have h0 : ((0 : Nat) : Int) = 0 := rfl
    rw [h0] at hloop
    rw [hloop]
    rfl
  refine ⟨hres, ?_⟩
  intro hcr
  have htrim : truncateLines s (m : Int) = trimFinalNewline s := by
    rw [hres, map_dropCR_of_not_mem s hcr, joinLines_splitLines]
  refine ⟨htrim, ?_⟩
  rw [htrim]
  exact trimFinalNewline_eq_self_iff s

theorem truncateLines_few_lines_witness :
    (3 : Int) > 0 ∧ ((splitLines (utf8 "a\nb")).length : Int) ≤ 3 ∧
    truncateLines (utf8 "a\nb") 3 = joinLines ((splitLines (utf8 "a\nb")).map dropCR) ∧
    (cr ∉ utf8 "a\nb" →
      truncateLines (utf8 "a\nb") 3 = trimFinalNewline (utf8 "a\nb") ∧
      (truncateLines (utf8 "a\nb") 3 = utf8 "a\nb" ↔ ¬ [nl] <:+ utf8 "a\nb")) :=
  ⟨by decide, by decide,
    truncateLines_few_lines (utf8 "a\nb") 3 (by decide) (by decide) (by decide)⟩

end Cpout
